import Mathlib

/-!
Verification of the Gmail-to-Drive email archiver (`src/code.js`, with the
sibling revision in `src/unnamed/part_000`) against its natural-language
specification.

The JavaScript is shallowly embedded: JS strings become Lean `String` /
`List Char` (code points), JS `null`/`undefined` header values become an
explicit `JStr` type, and every external effect (Gmail search, Drive file
creation, HTML-to-PDF conversion, the wall clock) is passed in explicitly as
data, so that each function of the script becomes a pure, executable Lean
function with the same branching structure as the source.
-/

set_option maxRecDepth 40000

/-- Model of a JavaScript string argument that may be `null` or `undefined`
(used by `escapeHtml`, whose first line checks for exactly these two). -/
inductive JStr where
  | null : JStr
  | undefined : JStr
  | str : String → JStr
deriving Repr, DecidableEq

/-- Model of `String.prototype.replace(/c/g, r)` for a single character `c`:
each occurrence of `c` is replaced by `r`; the replacement text is not
rescanned (JS `replace` continues after the replacement). -/
def replaceChar (c : Char) (r : List Char) : List Char → List Char
  | [] => []
  | a :: rest => (if a = c then r else [a]) ++ replaceChar c r rest

/-- Embedding of `escapeHtml` (src/code.js lines 452-459): `null` and
`undefined` return `''`; otherwise `&`, `<`, `>`, `"` are replaced, in this
order, by `&amp;`, `&lt;`, `&gt;`, `&quot;`. -/
def escapeHtml : JStr → String
  | .null => ""
  | .undefined => ""
  | .str s =>
      String.mk (replaceChar '"' "&quot;".data
        (replaceChar '>' "&gt;".data
          (replaceChar '<' "&lt;".data
            (replaceChar '&' "&amp;".data s.data))))

/-- Characters matched by the JavaScript `\s` class: ASCII whitespace, NBSP,
the Unicode space separators, the line/paragraph separators, and the BOM. -/
def jsSpace (c : Char) : Bool :=
  c = ' ' || c = '\t' || c = '\n' || c = '\r' ||
  c = Char.ofNat 11 || c = Char.ofNat 12 || c = Char.ofNat 160 ||
  c = Char.ofNat 5760 || (8192 ≤ c.toNat && c.toNat ≤ 8202) ||
  c = Char.ofNat 8232 || c = Char.ofNat 8233 || c = Char.ofNat 8239 ||
  c = Char.ofNat 8287 || c = Char.ofNat 12288 || c = Char.ofNat 65279

/-- Characters removed by `sanitizeFilename`: the class `[\\\/:\*\?"<>\|]`. -/
def badChar (c : Char) : Bool :=
  c = '\\' || c = '/' || c = ':' || c = '*' || c = '?' ||
  c = '"' || c = '<' || c = '>' || c = '|'

/-- Model of `.replace(/\s+/g, ' ')`, scanning with a flag that records
whether the previous character was whitespace: the first character of every
maximal whitespace run becomes a single space, later characters of the run
are dropped. -/
def collapseWsAux : Bool → List Char → List Char
  | _, [] => []
  | prevSpace, c :: rest =>
      if jsSpace c then
        (if prevSpace then [] else [' ']) ++ collapseWsAux true rest
      else c :: collapseWsAux false rest

/-- Model of `.replace(/\s+/g, ' ')`: every maximal run of whitespace becomes
a single space. -/
def collapseWs (l : List Char) : List Char := collapseWsAux false l

/-- Model of `String.prototype.trim()`: strip leading and trailing
whitespace. -/
def jsTrim (l : List Char) : List Char :=
  ((l.dropWhile jsSpace).reverse.dropWhile jsSpace).reverse

/-- The cleanup shared by both revisions of `sanitizeFilename`:
`name.replace(/[\\\/:\*\?"<>\|]/g, ' ').replace(/\s+/g, ' ').trim()`. -/
def sanitizeClean (name : String) : List Char :=
  jsTrim (collapseWs (name.data.map (fun c => if badChar c then ' ' else c)))

/-- Embedding of `sanitizeFilename` as it appears in src/code.js lines
374-379.  The appended truncation marker there is the three-character
sequence `â`, `€`, `¦` (the UTF-8 bytes of `…` mis-decoded as Latin-1),
which the hex dump of the file confirms. -/
def sanitizeFilename (name : String) : String :=
  let s := sanitizeClean name
  if s.length > 120 then String.mk (s.take 120 ++ ['â', '€', '¦'])
  else String.mk s

/-- Embedding of `sanitizeFilename` as it appears in src/unnamed/part_000
lines 121-126, where the truncation marker is the single character `…`. -/
def sanitizeFilenamePart0 (name : String) : String :=
  let s := sanitizeClean name
  if s.length > 120 then String.mk (s.take 120 ++ ['…'])
  else String.mk s

example : escapeHtml (.str "a&b") = "a&amp;b" := by decide
example : escapeHtml (.str "<x>") = "&lt;x&gt;" := by decide
example : sanitizeFilename "a/b:c" = "a b c" := by decide

/-- Model of a Drive `File` as far as `convertCIDtoBase64` observes it:
`file.getBlob()` yields bytes and a content type, `file.getName()` a name. -/
structure DriveFile where
  name : String
  contentType : String
  bytes : List Nat
deriving Repr, DecidableEq

/-- The base64 alphabet. -/
def base64Chars : List Char :=
  "ABCDEFGHIJKLMNOPQRSTUVWXYZabcdefghijklmnopqrstuvwxyz0123456789+/".data

/-- The base64 digit for a 6-bit value. -/
def b64c (n : Nat) : Char := base64Chars.getD n 'A'

/-- Model of `Utilities.base64Encode` on a byte list (values below 256). -/
def base64Encode : List Nat → List Char
  | [] => []
  | [b1] => [b64c (b1 / 4), b64c (b1 % 4 * 16), '=', '=']
  | [b1, b2] => [b64c (b1 / 4), b64c (b1 % 4 * 16 + b2 / 16), b64c (b2 % 16 * 4), '=']
  | b1 :: b2 :: b3 :: rest =>
      b64c (b1 / 4) :: b64c (b1 % 4 * 16 + b2 / 16) ::
      b64c (b2 % 16 * 4 + b3 / 64) :: b64c (b3 % 64) :: base64Encode rest

/-- The replacement string built for a mapped content id:
`'data:' + blob.getContentType() + ';base64,' + base64Data`. -/
def dataUriChars (f : DriveFile) : List Char :=
  'd' :: 'a' :: 't' :: 'a' :: ':' ::
    (f.contentType.data ++
      (';' :: 'b' :: 'a' :: 's' :: 'e' :: '6' :: '4' :: ',' :: base64Encode f.bytes))

/-- Lookup in the content-id map (`contentIdMap[cid]`).  The map is an
association list; entries added later in the part loop are prepended, so a
first-match lookup reproduces the JS object's overwrite semantics. -/
def cidLookup (m : List (String × DriveFile)) (k : String) : Option DriveFile :=
  match m with
  | [] => none
  | (k', f) :: rest => if k' = k then some f else cidLookup rest k

/-- The character class `[^'">\s]` from the regex `/cid:([^'">\s]+)/g`. -/
def cidClass (c : Char) : Bool :=
  !(c = '\'' || c = '"' || c = '>' || jsSpace c)

/-- Whether the regex `/cid:([^'">\s]+)/` matches at the start of `l`:
the four characters `cid:` followed by at least one class character. -/
def isCidStart (l : List Char) : Bool :=
  match l with
  | 'c' :: 'i' :: 'd' :: ':' :: c :: _ => cidClass c
  | _ => false

/-- Characterization of `isCidStart`. -/
theorem isCidStart_iff {l : List Char} :
    isCidStart l = true ↔
      ∃ c rest, l = 'c' :: 'i' :: 'd' :: ':' :: c :: rest ∧ cidClass c = true := by
  constructor
  · intro h
    unfold isCidStart at h
    split at h
    · next c rest => exact ⟨c, rest, rfl, h⟩
    · exact absurd h (by simp)
  · rintro ⟨c, rest, rfl, hc⟩
    simpa [isCidStart] using hc

/-- Fuel-driven scanner for `html.replace(/cid:([^'">\s]+)/g, fn)`: at each
position, if the regex matches, the greedy token is taken, looked up, and the
match is replaced (by the data URI on a hit, by itself on a miss); otherwise
one character is emitted unchanged.  Fuel bounds the recursion so the
function is structurally recursive and computes; `replaceCIDs` supplies
enough fuel. -/
def replaceCIDsF (m : List (String × DriveFile)) : Nat → List Char → List Char
  | 0, l => l
  | _ + 1, [] => []
  | fuel + 1, x :: xs =>
      if isCidStart (x :: xs) then
        (match cidLookup m (String.mk (((x :: xs).drop 4).takeWhile cidClass)) with
         | some f => dataUriChars f
         | none => 'c' :: 'i' :: 'd' :: ':' :: ((x :: xs).drop 4).takeWhile cidClass) ++
          replaceCIDsF m fuel (((x :: xs).drop 4).dropWhile cidClass)
      else x :: replaceCIDsF m fuel xs

/-- The global regex replacement of `convertCIDtoBase64`. -/
def replaceCIDs (m : List (String × DriveFile)) (l : List Char) : List Char :=
  replaceCIDsF m l.length l

/-- Embedding of `convertCIDtoBase64` (src/code.js lines 387-398). -/
def convertCIDtoBase64 (html : String) (contentIdMap : List (String × DriveFile)) :
    String :=
  String.mk (replaceCIDs contentIdMap html.data)

/-- Fuel-driven tokenizer listing the captured group of every match of
`/cid:([^'">\s]+)/g` in scan order (the identifiers, without the `cid:`
prefix). -/
def cidTokensF : Nat → List Char → List (List Char)
  | 0, _ => []
  | _ + 1, [] => []
  | fuel + 1, x :: xs =>
      if isCidStart (x :: xs) then
        ((x :: xs).drop 4).takeWhile cidClass ::
          cidTokensF fuel (((x :: xs).drop 4).dropWhile cidClass)
      else cidTokensF fuel xs

/-- The cid tokens of a character list. -/
def cidTokens (l : List Char) : List (List Char) := cidTokensF l.length l

example : cidTokens "x cid:abc y".data = [['a', 'b', 'c']] := by decide
example :
    convertCIDtoBase64 "<img src=\"cid:a\">" [("a", ⟨"f", "image/png", [1, 2]⟩)] =
      "<img src=\"data:image/png;base64,AQI=\">" := by decide
example : convertCIDtoBase64 "<img src=\"cid:a\">" [] = "<img src=\"cid:a\">" := by decide

/-- Dropping a prefix while a predicate holds never lengthens a list. -/
theorem length_dropWhile_le (p : Char → Bool) (l : List Char) :
    (l.dropWhile p).length ≤ l.length :=
  (List.dropWhile_sublist p).length_le

/-- The tail the scanner recurses on is no longer than the tail of the input. -/
theorem scanTail_length_le (x : Char) (xs : List Char) :
    (((x :: xs).drop 4).dropWhile cidClass).length ≤ xs.length := by
  have h1 := length_dropWhile_le cidClass ((x :: xs).drop 4)
  have h2 : ((x :: xs).drop 4).length = xs.length - 3 := by
    simp [List.length_drop]
  omega

/-- The scanner result does not depend on the fuel, provided there is enough
of it. -/
theorem replaceCIDsF_eq_of_le (m : List (String × DriveFile)) :
    ∀ fuel₁ fuel₂ l, l.length ≤ fuel₁ → l.length ≤ fuel₂ →
      replaceCIDsF m fuel₁ l = replaceCIDsF m fuel₂ l := by
  intro fuel₁
  induction fuel₁ with
  | zero =>
      intro fuel₂ l h1 _
      have hl : l = [] := List.length_eq_zero.mp (Nat.le_zero.mp h1)
      subst hl
      cases fuel₂ <;> simp [replaceCIDsF]
  | succ n ih =>
      intro fuel₂ l h1 h2
      cases l with
      | nil => cases fuel₂ <;> simp [replaceCIDsF]
      | cons x xs =>
          cases fuel₂ with
          | zero => simp at h2
          | succ n₂ =>
              have hx1 : xs.length ≤ n := by simp at h1; omega
              have hx2 : xs.length ≤ n₂ := by simp at h2; omega
              have ht := scanTail_length_le x xs
              simp only [replaceCIDsF]
              by_cases hs : isCidStart (x :: xs) = true
              · rw [if_pos hs, if_pos hs,
                  ih n₂ (((x :: xs).drop 4).dropWhile cidClass) (by omega) (by omega)]
              · rw [if_neg hs, if_neg hs, ih n₂ xs hx1 hx2]

/-- The tokenizer result does not depend on the fuel, provided there is
enough of it. -/
theorem cidTokensF_eq_of_le :
    ∀ fuel₁ fuel₂ l, l.length ≤ fuel₁ → l.length ≤ fuel₂ →
      cidTokensF fuel₁ l = cidTokensF fuel₂ l := by
  intro fuel₁
  induction fuel₁ with
  | zero =>
      intro fuel₂ l h1 _
      have hl : l = [] := List.length_eq_zero.mp (Nat.le_zero.mp h1)
      subst hl
      cases fuel₂ <;> simp [cidTokensF]
  | succ n ih =>
      intro fuel₂ l h1 h2
      cases l with
      | nil => cases fuel₂ <;> simp [cidTokensF]
      | cons x xs =>
          cases fuel₂ with
          | zero => simp at h2
          | succ n₂ =>
              have hx1 : xs.length ≤ n := by simp at h1; omega
              have hx2 : xs.length ≤ n₂ := by simp at h2; omega
              have ht := scanTail_length_le x xs
              simp only [cidTokensF]
              by_cases hs : isCidStart (x :: xs) = true
              · rw [if_pos hs, if_pos hs,
                  ih n₂ (((x :: xs).drop 4).dropWhile cidClass) (by omega) (by omega)]
              · rw [if_neg hs, if_neg hs, ih n₂ xs hx1 hx2]

theorem replaceCIDs_nil (m : List (String × DriveFile)) : replaceCIDs m [] = [] := rfl

theorem cidTokens_nil : cidTokens [] = [] := rfl

theorem replaceCIDs_cons_nomatch {x : Char} {xs : List Char}
    (m : List (String × DriveFile)) (h : isCidStart (x :: xs) = false) :
    replaceCIDs m (x :: xs) = x :: replaceCIDs m xs := by
  simp only [replaceCIDs, List.length_cons, replaceCIDsF]
  rw [if_neg (by simp [h])]

theorem cidTokens_cons_nomatch {x : Char} {xs : List Char}
    (h : isCidStart (x :: xs) = false) :
    cidTokens (x :: xs) = cidTokens xs := by
  simp only [cidTokens, List.length_cons, cidTokensF]
  rw [if_neg (by simp [h])]

theorem replaceCIDs_cons_match {c : Char} {rest : List Char}
    (m : List (String × DriveFile)) (hc : cidClass c = true) :
    replaceCIDs m ('c' :: 'i' :: 'd' :: ':' :: c :: rest) =
      (match cidLookup m (String.mk ((c :: rest).takeWhile cidClass)) with
       | some f => dataUriChars f
       | none => 'c' :: 'i' :: 'd' :: ':' :: (c :: rest).takeWhile cidClass) ++
        replaceCIDs m ((c :: rest).dropWhile cidClass) := by
  have hs : isCidStart ('c' :: 'i' :: 'd' :: ':' :: c :: rest) = true := by
    simpa [isCidStart] using hc
  have hlen : ((c :: rest).dropWhile cidClass).length ≤ rest.length + 4 := by
    have := length_dropWhile_le cidClass (c :: rest)
    simp at this
    omega
  simp only [replaceCIDs, List.length_cons, replaceCIDsF]
  rw [if_pos (by simp [hs])]
  simp only [List.drop_succ_cons, List.drop_zero]
  rw [replaceCIDsF_eq_of_le m (rest.length + 1 + 1 + 1 + 1)
    ((c :: rest).dropWhile cidClass).length ((c :: rest).dropWhile cidClass)
    (by omega) (by omega)]

theorem cidTokens_cons_match {c : Char} {rest : List Char} (hc : cidClass c = true) :
    cidTokens ('c' :: 'i' :: 'd' :: ':' :: c :: rest) =
      (c :: rest).takeWhile cidClass :: cidTokens ((c :: rest).dropWhile cidClass) := by
  have hs : isCidStart ('c' :: 'i' :: 'd' :: ':' :: c :: rest) = true := by
    simpa [isCidStart] using hc
  have hlen : ((c :: rest).dropWhile cidClass).length ≤ rest.length + 4 := by
    have := length_dropWhile_le cidClass (c :: rest)
    simp at this
    omega
  simp only [cidTokens, List.length_cons, cidTokensF]
  rw [if_pos (by simp [hs])]
  simp only [List.drop_succ_cons, List.drop_zero]
  rw [cidTokensF_eq_of_le (rest.length + 1 + 1 + 1 + 1)
    ((c :: rest).dropWhile cidClass).length ((c :: rest).dropWhile cidClass)
    (by omega) (by omega)]

/-- A list whose head (if any) is outside the token character class.  The
text left after a greedy token always has this property, and it is exactly
what keeps tokens from spanning a replacement boundary. -/
def noClassHead (b : List Char) : Prop :=
  ∀ c cs, b = c :: cs → cidClass c = false

theorem noClassHead_nil : noClassHead [] := by
  intro c cs h
  exact absurd h (by simp)

theorem noClassHead_dropWhile (l : List Char) : noClassHead (l.dropWhile cidClass) := by
  induction l with
  | nil => exact noClassHead_nil
  | cons x xs ih =>
      intro c cs h
      by_cases hx : cidClass x = true
      · rw [List.dropWhile_cons_of_pos hx] at h
        exact ih c cs h
      · rw [List.dropWhile_cons_of_neg hx] at h
        cases h
        exact Bool.eq_false_iff.mpr hx

theorem takeWhile_append_noClass {b : List Char} (hb : noClassHead b) :
    ∀ u : List Char, (u ++ b).takeWhile cidClass = u.takeWhile cidClass := by
  intro u
  induction u with
  | nil =>
      simp only [List.nil_append, List.takeWhile_nil]
      cases b with
      | nil => simp
      | cons c cs => simp [List.takeWhile_cons, hb c cs rfl]
  | cons x xs ih =>
      by_cases hx : cidClass x = true
      · simp [List.takeWhile_cons, hx, ih]
      · simp [List.takeWhile_cons, Bool.eq_false_iff.mpr hx]

theorem dropWhile_append_noClass {b : List Char} (hb : noClassHead b) :
    ∀ u : List Char, (u ++ b).dropWhile cidClass = u.dropWhile cidClass ++ b := by
  intro u
  induction u with
  | nil =>
      simp only [List.nil_append, List.dropWhile_nil]
      cases b with
      | nil => simp
      | cons c cs => simp [List.dropWhile_cons, hb c cs rfl]
  | cons x xs ih =>
      by_cases hx : cidClass x = true
      · simp [List.dropWhile_cons, hx, ih]
      · simp [List.dropWhile_cons, Bool.eq_false_iff.mpr hx]

/-- Appending text whose head is not a class character can neither create
nor destroy a match at the start. -/
theorem isCidStart_append {b : List Char} (hb : noClassHead b) (a : List Char) :
    isCidStart (a ++ b) = isCidStart a := by
  by_cases ha : isCidStart a = true
  · obtain ⟨c, rest, rfl, hc⟩ := isCidStart_iff.mp ha
    rw [ha]
    exact isCidStart_iff.mpr ⟨c, rest ++ b, by simp, hc⟩
  · rw [Bool.eq_false_iff.mpr ha]
    rw [Bool.eq_false_iff]
    intro hab
    obtain ⟨c₅, r, heq, hcl⟩ := isCidStart_iff.mp hab
    apply ha
    match a, heq with
    | [], heq =>
        rw [List.nil_append] at heq
        have := hb 'c' ('i' :: 'd' :: ':' :: c₅ :: r) heq
        simp [cidClass, jsSpace] at this
    | [a1], heq =>
        simp only [List.cons_append, List.nil_append, List.cons.injEq] at heq
        have := hb 'i' ('d' :: ':' :: c₅ :: r) heq.2
        simp [cidClass, jsSpace] at this
    | [a1, a2], heq =>
        simp only [List.cons_append, List.nil_append, List.cons.injEq] at heq
        have := hb 'd' (':' :: c₅ :: r) heq.2.2
        simp [cidClass, jsSpace] at this
    | [a1, a2, a3], heq =>
        simp only [List.cons_append, List.nil_append, List.cons.injEq] at heq
        have := hb ':' (c₅ :: r) heq.2.2.2
        simp [cidClass, jsSpace] at this
    | [a1, a2, a3, a4], heq =>
        simp only [List.cons_append, List.nil_append, List.cons.injEq] at heq
        have := hb c₅ r heq.2.2.2.2
        rw [this] at hcl
        exact absurd hcl (by simp)
    | a1 :: a2 :: a3 :: a4 :: a5 :: as, heq =>
        simp only [List.cons_append, List.cons.injEq] at heq
        obtain ⟨h1, h2, h3, h4, h5, _⟩ := heq
        subst h1; subst h2; subst h3; subst h4
        exact isCidStart_iff.mpr ⟨a5, as, by rw [h5], h5 ▸ hcl⟩

theorem takeWhile_of_all {p : Char → Bool} :
    ∀ {l : List Char}, (∀ c ∈ l, p c = true) → l.takeWhile p = l := by
  intro l
  induction l with
  | nil => intro _; rfl
  | cons x xs ih =>
      intro h
      rw [List.takeWhile_cons_of_pos (h x (by simp))]
      rw [ih (fun c hc => h c (by simp [hc]))]

theorem dropWhile_of_all {p : Char → Bool} :
    ∀ {l : List Char}, (∀ c ∈ l, p c = true) → l.dropWhile p = [] := by
  intro l
  induction l with
  | nil => intro _; rfl
  | cons x xs ih =>
      intro h
      rw [List.dropWhile_cons_of_pos (h x (by simp))]
      exact ih (fun c hc => h c (by simp [hc]))

theorem mem_takeWhile_class {p : Char → Bool} :
    ∀ {l : List Char} {c : Char}, c ∈ l.takeWhile p → p c = true := by
  intro l
  induction l with
  | nil => intro c h; simp at h
  | cons x xs ih =>
      intro c h
      rw [List.takeWhile_cons] at h
      by_cases hx : p x = true
      · simp only [hx, if_true] at h
        rcases List.mem_cons.mp h with h | h
        · exact h ▸ hx
        · exact ih h
      · simp [Bool.eq_false_iff.mpr hx] at h

/-- Tokens of a concatenation split at the boundary when the appended text
cannot extend or begin a token. -/
theorem cidTokens_append {b : List Char} (hb : noClassHead b) :
    ∀ (n : Nat) (a : List Char), a.length ≤ n →
      cidTokens (a ++ b) = cidTokens a ++ cidTokens b := by
  intro n
  induction n with
  | zero =>
      intro a ha
      have : a = [] := List.length_eq_zero.mp (Nat.le_zero.mp ha)
      subst this
      simp [cidTokens_nil]
  | succ n ih =>
      intro a ha
      by_cases hs : isCidStart a = true
      · obtain ⟨c, rest, rfl, hc⟩ := isCidStart_iff.mp hs
        have hdw := length_dropWhile_le cidClass (c :: rest)
        simp only [List.length_cons] at ha hdw
        rw [List.cons_append, List.cons_append, List.cons_append, List.cons_append,
          List.cons_append, cidTokens_cons_match hc]
        rw [show c :: (rest ++ b) = (c :: rest) ++ b from by simp]
        rw [takeWhile_append_noClass hb, dropWhile_append_noClass hb]
        rw [cidTokens_cons_match hc]
        rw [ih ((c :: rest).dropWhile cidClass) (by omega)]
        simp
      · cases a with
        | nil => simp [cidTokens_nil]
        | cons x xs =>
            have hs' : isCidStart (x :: (xs ++ b)) = false := by
              have := isCidStart_append hb (x :: xs)
              simp only [List.cons_append] at this
              rw [this]
              exact Bool.eq_false_iff.mpr hs
            rw [List.cons_append, cidTokens_cons_nomatch hs',
              cidTokens_cons_nomatch (Bool.eq_false_iff.mpr hs)]
            exact ih xs (by simp at ha; omega)

/-- A non-class character at the head passes through the scanner unchanged. -/
theorem replaceCIDs_headkeep (m : List (String × DriveFile)) {c : Char}
    {cs : List Char} (hc : cidClass c = false) :
    replaceCIDs m (c :: cs) = c :: replaceCIDs m cs := by
  apply replaceCIDs_cons_nomatch
  rw [Bool.eq_false_iff]
  intro hs
  obtain ⟨c', r', heq, _⟩ := isCidStart_iff.mp hs
  injection heq with h1 _
  rw [h1] at hc
  simp [cidClass, jsSpace] at hc

/-- The scanner's output keeps a non-class head. -/
theorem noClassHead_replaceCIDs (m : List (String × DriveFile)) {l : List Char}
    (hl : noClassHead l) : noClassHead (replaceCIDs m l) := by
  cases l with
  | nil => rw [replaceCIDs_nil]; exact noClassHead_nil
  | cons c cs =>
      rw [replaceCIDs_headkeep m (hl c cs rfl)]
      intro c' cs' h
      cases h
      exact hl c cs rfl

/-- A replacement never creates a fresh match just before the scanner's
output: if the regex did not match at `x :: xs`, it does not match at
`x :: replaceCIDs m xs` either. -/
theorem isCidStart_replaceCIDs_false (m : List (String × DriveFile)) (x : Char)
    (xs : List Char) (h : isCidStart (x :: xs) = false) :
    isCidStart (x :: replaceCIDs m xs) = false := by
  rw [Bool.eq_false_iff]
  intro hab
  obtain ⟨c₅, r, heq, hcl⟩ := isCidStart_iff.mp hab
  injection heq with hx hrest
  subst hx
  by_cases h1 : isCidStart xs = true
  · obtain ⟨c', rest', rfl, hc'⟩ := isCidStart_iff.mp h1
    rw [replaceCIDs_cons_match m hc'] at hrest
    cases hlk : cidLookup m (String.mk ((c' :: rest').takeWhile cidClass)) with
    | some f => rw [hlk] at hrest; simp [dataUriChars] at hrest
    | none => rw [hlk] at hrest; simp at hrest
  · cases xs with
    | nil => rw [replaceCIDs_nil] at hrest; exact absurd hrest (by simp)
    | cons y ys =>
        rw [replaceCIDs_cons_nomatch m (Bool.eq_false_iff.mpr h1)] at hrest
        injection hrest with hy hrest2
        subst hy
        by_cases h2 : isCidStart ys = true
        · obtain ⟨c', rest', rfl, hc'⟩ := isCidStart_iff.mp h2
          rw [replaceCIDs_cons_match m hc'] at hrest2
          cases hlk : cidLookup m (String.mk ((c' :: rest').takeWhile cidClass)) with
          | some f => rw [hlk] at hrest2; simp [dataUriChars] at hrest2
          | none => rw [hlk] at hrest2; simp at hrest2
        · cases ys with
          | nil => rw [replaceCIDs_nil] at hrest2; exact absurd hrest2 (by simp)
          | cons z zs =>
              rw [replaceCIDs_cons_nomatch m (Bool.eq_false_iff.mpr h2)] at hrest2
              injection hrest2 with hz hrest3
              subst hz
              by_cases h3 : isCidStart zs = true
              · obtain ⟨c', rest', rfl, hc'⟩ := isCidStart_iff.mp h3
                rw [replaceCIDs_cons_match m hc'] at hrest3
                cases hlk : cidLookup m (String.mk ((c' :: rest').takeWhile cidClass)) with
                | some f => rw [hlk] at hrest3; simp [dataUriChars] at hrest3
                | none => rw [hlk] at hrest3; simp at hrest3
              · cases zs with
                | nil => rw [replaceCIDs_nil] at hrest3; exact absurd hrest3 (by simp)
                | cons w ws =>
                    rw [replaceCIDs_cons_nomatch m (Bool.eq_false_iff.mpr h3)] at hrest3
                    injection hrest3 with hw hrest4
                    subst hw
                    cases ws with
                    | nil => rw [replaceCIDs_nil] at hrest4; exact absurd hrest4 (by simp)
                    | cons v vs =>
                        have hv : cidClass v = false := by
                          rw [Bool.eq_false_iff]
                          intro hvc
                          rw [Bool.eq_false_iff] at h
                          exact h (isCidStart_iff.mpr ⟨v, vs, rfl, hvc⟩)
                        have h4 : isCidStart (v :: vs) = false := by
                          rw [Bool.eq_false_iff]
                          intro hvv
                          obtain ⟨c'', r'', heq'', _⟩ := isCidStart_iff.mp hvv
                          injection heq'' with hv' _
                          rw [hv'] at hv
                          simp [cidClass, jsSpace] at hv
                        rw [replaceCIDs_cons_nomatch m h4] at hrest4
                        injection hrest4 with hv5 _
                        rw [hv5] at hv
                        rw [hv] at hcl
                        exact absurd hcl (by simp)

/-- A successful lookup comes from an entry of the map. -/
theorem cidLookup_mem {m : List (String × DriveFile)} {k : String} {f : DriveFile}
    (h : cidLookup m k = some f) : (k, f) ∈ m := by
  induction m with
  | nil => simp [cidLookup] at h
  | cons p rest ih =>
      obtain ⟨k', f'⟩ := p
      by_cases hk : k' = k
      · simp [cidLookup, hk] at h
        simp [hk, h]
      · simp only [cidLookup, if_neg hk] at h
        exact List.mem_cons_of_mem _ (ih h)

/-- Master token accounting for the scanner: provided no data URI built from
a mapped file contains a cid token of its own, the tokens surviving in the
output are exactly the unmapped tokens of the input, in order. -/
theorem replaceCIDs_tokens_master (m : List (String × DriveFile))
    (H : ∀ p ∈ m, cidTokens (dataUriChars p.2) = []) :
    ∀ (n : Nat) (l : List Char), l.length ≤ n →
      cidTokens (replaceCIDs m l) =
        (cidTokens l).filter (fun t => (cidLookup m (String.mk t)).isNone) := by
  intro n
  induction n with
  | zero =>
      intro l hl
      have : l = [] := List.length_eq_zero.mp (Nat.le_zero.mp hl)
      subst this
      simp [replaceCIDs_nil, cidTokens_nil]
  | succ n ih =>
      intro l hl
      by_cases hs : isCidStart l = true
      · obtain ⟨c, rest, rfl, hc⟩ := isCidStart_iff.mp hs
        have hdw := length_dropWhile_le cidClass (c :: rest)
        simp only [List.length_cons] at hl hdw
        have hlen : ((c :: rest).dropWhile cidClass).length ≤ n := by omega
        have hnch : noClassHead ((c :: rest).dropWhile cidClass) :=
          noClassHead_dropWhile (c :: rest)
        have hout : noClassHead (replaceCIDs m ((c :: rest).dropWhile cidClass)) :=
          noClassHead_replaceCIDs m hnch
        rw [replaceCIDs_cons_match m hc, cidTokens_cons_match hc]
        cases hlk : cidLookup m (String.mk ((c :: rest).takeWhile cidClass)) with
        | some f =>
            rw [cidTokens_append hout (dataUriChars f).length (dataUriChars f) le_rfl]
            rw [H (String.mk ((c :: rest).takeWhile cidClass), f) (cidLookup_mem hlk)]
            rw [List.nil_append, ih _ hlen]
            simp [List.filter_cons, hlk]
        | none =>
            rw [cidTokens_append hout _ _ le_rfl]
            have htok : (c :: rest).takeWhile cidClass = c :: rest.takeWhile cidClass :=
              List.takeWhile_cons_of_pos hc
            have hall : ∀ ch ∈ (c :: rest).takeWhile cidClass, cidClass ch = true :=
              fun ch hch => mem_takeWhile_class hch
            rw [htok] at hall
            rw [htok, cidTokens_cons_match hc]
            rw [takeWhile_of_all hall, dropWhile_of_all hall, cidTokens_nil]
            rw [ih _ hlen]
            rw [← htok]
            simp [List.filter_cons, hlk]
      · cases l with
        | nil => simp [replaceCIDs_nil, cidTokens_nil]
        | cons x xs =>
            have hs' := Bool.eq_false_iff.mpr hs
            rw [replaceCIDs_cons_nomatch m hs',
              cidTokens_cons_nomatch (isCidStart_replaceCIDs_false m x xs hs'),
              cidTokens_cons_nomatch hs']
            exact ih xs (by simp at hl; omega)

/-- With an empty content-id map, every match echoes itself, so the scanner
is the identity. -/
theorem replaceCIDs_empty_master :
    ∀ (n : Nat) (l : List Char), l.length ≤ n → replaceCIDs [] l = l := by
  intro n
  induction n with
  | zero =>
      intro l hl
      have : l = [] := List.length_eq_zero.mp (Nat.le_zero.mp hl)
      subst this
      exact replaceCIDs_nil []
  | succ n ih =>
      intro l hl
      by_cases hs : isCidStart l = true
      · obtain ⟨c, rest, rfl, hc⟩ := isCidStart_iff.mp hs
        have hdw := length_dropWhile_le cidClass (c :: rest)
        simp only [List.length_cons] at hl hdw
        rw [replaceCIDs_cons_match [] hc]
        show ('c' :: 'i' :: 'd' :: ':' :: (c :: rest).takeWhile cidClass) ++
          replaceCIDs [] ((c :: rest).dropWhile cidClass) = _
        rw [ih _ (by omega)]
        simp [List.takeWhile_append_dropWhile]
      · cases l with
        | nil => exact replaceCIDs_nil []
        | cons x xs =>
            rw [replaceCIDs_cons_nomatch [] (Bool.eq_false_iff.mpr hs)]
            rw [ih xs (by simp at hl; omega)]

/-- Model of `String.prototype.toLowerCase()` on one character, for the
ASCII range that email addresses use. -/
def jsToLower (c : Char) : Char :=
  match c with
  | 'A' => 'a' | 'B' => 'b' | 'C' => 'c' | 'D' => 'd' | 'E' => 'e' | 'F' => 'f'
  | 'G' => 'g' | 'H' => 'h' | 'I' => 'i' | 'J' => 'j' | 'K' => 'k' | 'L' => 'l'
  | 'M' => 'm' | 'N' => 'n' | 'O' => 'o' | 'P' => 'p' | 'Q' => 'q' | 'R' => 'r'
  | 'S' => 's' | 'T' => 't' | 'U' => 'u' | 'V' => 'v' | 'W' => 'w' | 'X' => 'x'
  | 'Y' => 'y' | 'Z' => 'z'
  | c => c

/-- Whether `needle` is a prefix of `hay`. -/
def startsList : List Char → List Char → Bool
  | [], _ => true
  | _ :: _, [] => false
  | a :: as, b :: bs => a = b && startsList as bs

/-- Whether `needle` occurs as a contiguous run inside `hay`
(`hay.indexOf(needle) !== -1`). -/
def occursIn (needle : List Char) : List Char → Bool
  | [] => startsList needle []
  | h :: t => startsList needle (h :: t) || occursIn needle t

/-- Embedding of the sender filter at src/code.js line 215:
`msg.getFrom().toLowerCase().indexOf('<' + sender.toLowerCase() + '>') !== -1`
(with the template literal spelled out). -/
def senderMatches (fromHeader sender : String) : Bool :=
  occursIn ('<' :: (sender.data.map jsToLower ++ ['>'])) (fromHeader.data.map jsToLower)

/-- Modelled from the spec: the address portion of a sender header — the text
inside the final angle-bracket pair when one is present, otherwise the whole
header — as opposed to the display name, which precedes it. -/
def addressPortion (fromHeader : String) : String :=
  let afterLt := (fromHeader.data.reverse.takeWhile (fun c => c ≠ '<')).reverse
  String.mk (afterLt.takeWhile (fun c => c ≠ '>'))

example : addressPortion "Denise Newman <hr@cca.edu>" = "hr@cca.edu" := by decide
example : senderMatches "Denise Newman <HR@cca.edu>" "hr@cca.edu" = true := by decide
example : senderMatches "Someone Else <staff@cca.edu>" "hr@cca.edu" = false := by decide

/-- Result of one message's three-artifact persistence attempt. -/
inductive Artifact where
  | eml : Artifact
  | html : Artifact
  | pdf : Artifact
deriving Repr, DecidableEq

/-- Environment oracle for the three Drive/conversion operations performed
for one message: whether the `.eml` save, the `.html` save, and the
HTML-to-PDF conversion-and-save succeed. -/
structure PersistOracle where
  emlOk : Bool
  htmlOk : Bool
  pdfOk : Bool
deriving Repr, DecidableEq

/-- Embedding of the single `try` block at src/code.js lines 297-312: the
`.eml` save, the `.html` save, and the PDF conversion-and-save run in this
order inside one guarded block, so the first operation that throws skips the
later ones; the exception is caught (and logged), so processing continues
with the next message.  The result is the list of artifacts actually
created. -/
def persistArtifacts (o : PersistOracle) : List Artifact :=
  if o.emlOk = false then []
  else if o.htmlOk = false then [Artifact.eml]
  else if o.pdfOk = false then [Artifact.eml, Artifact.html]
  else [Artifact.eml, Artifact.html, Artifact.pdf]

/-- Model of one MIME part of the advanced-API message payload, together
with the environment's answers for the external calls made while processing
it. -/
structure MimePart where
  filename : String
  hasData : Bool
  saveOk : Bool
  contentId : Option String
  file : DriveFile
deriving Repr, DecidableEq

/-- Embedding of the per-part body of the `parts.forEach` loop at
src/code.js lines 238-291: parts without a filename are skipped, parts whose
data cannot be obtained are skipped with a log, a failing save is caught and
logged, and a successful save yields the created file plus (when the part
carries a content id) a content-id map entry. -/
def processPart (p : MimePart) : Option (DriveFile × Option (String × DriveFile)) :=
  if p.filename = "" then none
  else if p.hasData = false then none
  else if p.saveOk = false then none
  else some (p.file, p.contentId.map (fun c => (c, p.file)))

/-- Runs the part loop over all parts, collecting saved files in order and
building the content-id map.  A later entry for the same content id
overwrites an earlier one (JS object assignment), which under the
first-match `cidLookup` means later entries are placed in front. -/
def collectParts : List MimePart → List DriveFile × List (String × DriveFile)
  | [] => ([], [])
  | p :: rest =>
      match processPart p with
      | none => collectParts rest
      | some (f, none) =>
          ((collectParts rest).1.cons f, (collectParts rest).2)
      | some (f, some e) =>
          ((collectParts rest).1.cons f, (collectParts rest).2 ++ [e])

/-- What one message contributes to the archive: the names of the attachment
files saved for it and the artifacts persisted for it. -/
structure MsgOutcome where
  attachmentsSaved : List String
  artifacts : List Artifact
deriving Repr, DecidableEq

/-- Model of a `GmailMessage` together with the environment's answers for
the external calls made while processing it.  `getDateString` is
`msg.getDate().toString()` and `formattedDate` is
`Utilities.formatDate(msg.getDate(), tz, 'yyyy-MM-dd')`; `getSubject = ""`
models both a null and an empty subject (both are JS-falsy). -/
structure GmailMessage where
  getFrom : String
  getDateString : String
  formattedDate : String
  getSubject : String
  getBody : String
  getRawContent : String
  parts : List MimePart
  persistOracle : PersistOracle
deriving Repr, DecidableEq

/-- Embedding of the per-message body of the `messages.forEach` loop at
src/code.js lines 213-313: the sender check comes first and a mismatch skips
everything (no part extraction, no artifact saves); otherwise the parts are
processed and the three artifacts are attempted. -/
def processMessage (sender : String) (msg : GmailMessage) : MsgOutcome :=
  if senderMatches msg.getFrom sender = false then ⟨[], []⟩
  else
    ⟨(collectParts msg.parts).1.map (fun f => f.name),
      persistArtifacts msg.persistOracle⟩

/-- A Gmail thread. -/
structure Thread where
  messages : List GmailMessage
deriving Repr, DecidableEq

/-- The environment of one archiver invocation: what `GmailApp.search`
returns for a query (already capped at 500 threads by the external call) and
what id `getOrCreateFolderByName` returns for a folder name. -/
structure ArchiveEnv where
  search : String → List Thread
  folderByName : String → String

/-- The date validation `/^\d{4}\-\d{2}\-\d{2}$/` used for `startDate` and
`endDate`. -/
def matchesDateFormat (s : String) : Bool :=
  match s.data with
  | [y1, y2, y3, y4, s1, m1, m2, s2, d1, d2] =>
      y1.isDigit && y2.isDigit && y3.isDigit && y4.isDigit && s1 = '-' &&
      m1.isDigit && m2.isDigit && s2 = '-' && d1.isDigit && d2.isDigit
  | _ => false

/-- The Gmail query string built at src/code.js line 200. -/
def buildQuery (sender subjectKeyword startDate endDate : String) : String :=
  "from:" ++ sender ++ " subject:\"" ++ subjectKeyword ++ "\" after:" ++
    startDate ++ " before:" ++ endDate

/-- Embedding of `archiveEmails` (src/code.js lines 185-317): validations in
source order (sender, then startDate, then endDate), folder defaulting,
subject defaulting to `''`, query construction, search, and the
thread/message loops.  A thrown precondition error is the `Except.error`
with the message text; the ok value lists the per-message outcomes in
processing order. -/
def archiveEmails (env : ArchiveEnv) (startDate endDate sender : String)
    (subjectKeyword folderId : Option String) : Except String (List MsgOutcome) :=
  if sender = "" then Except.error "sender email is required"
  else if matchesDateFormat startDate = false then
    Except.error "startDate is required (format YYYY-MM-DD). Use archiveYear(year) to archive a full year."
  else if matchesDateFormat endDate = false then
    Except.error "endDate is required (format YYYY-MM-DD). Use archiveYear(year) to archive a full year."
  else
    let _folderId := match folderId with
      | some fid => fid
      | none => env.folderByName (sender ++ " Email Archive")
    let query := buildQuery sender (subjectKeyword.getD "") startDate endDate
    let threads := env.search query
    Except.ok (List.flatten (threads.map (fun t => t.messages.map (processMessage sender))))

/-- Embedding of `archiveYear` (src/code.js lines 327-333): the year check
`!year || isNaN(year)` (for an integer year this is `year = 0`), then
delegation with `year + '-01-01'` and `year + 1 + '-01-01'`. -/
def archiveYear (env : ArchiveEnv) (year : Int) (sender : String)
    (subjectKeyword folderId : Option String) : Except String (List MsgOutcome) :=
  if year = 0 then Except.error "Provide a numeric year, e.g. archiveYear(2024)"
  else archiveEmails env (toString year ++ "-01-01") (toString (year + 1) ++ "-01-01")
    sender subjectKeyword folderId

/-- The test `/<[a-z][\s\S]*>/i.test(bodyHtml)` at src/code.js line 422:
somewhere in the text, a `<` followed by an ASCII letter and, later, a `>`. -/
def hasMarkup : List Char → Bool
  | [] => false
  | '<' :: c :: rest => (c.isAlpha && rest.contains '>') || hasMarkup (c :: rest)
  | _ :: rest => hasMarkup rest

/-- The `headersHtml` block of `buildMessageHtml` (src/code.js lines
410-416); the `To:` line is commented out in the source. -/
def headersHtml (msg : GmailMessage) : String :=
  "<div style=\"font-family: Arial, sans-serif; margin-bottom:12px;\">" ++
  "<strong>From:</strong> " ++ escapeHtml (.str msg.getFrom) ++ "<br>" ++
  "<strong>Date:</strong> " ++ escapeHtml (.str msg.getDateString) ++ "<br>" ++
  "<strong>Subject:</strong> " ++ escapeHtml (.str msg.getSubject) ++ "<br>" ++
  "</div>"

/-- The `bodyHtml` computation of `buildMessageHtml` (src/code.js lines
420-428): the rich body, wrapped in a `<pre>` block when it contains no
markup, then run through `convertCIDtoBase64` when a content-id map was
passed (in JS even an empty `{}` is truthy, so `some []` converts). -/
def bodyHtml (msg : GmailMessage) (contentIdMap : Option (List (String × DriveFile))) :
    String :=
  let body := msg.getBody
  let body :=
    if hasMarkup body.data then body
    else "<pre style=\"white-space:pre-wrap;font-family:Arial,Helvetica,sans-serif;\">" ++
      escapeHtml (.str body) ++ "</pre>"
  match contentIdMap with
  | some m => convertCIDtoBase64 body m
  | none => body

/-- The `attachmentsHtml` block of `buildMessageHtml` (src/code.js lines
430-435). -/
def attachmentsHtml (attachments : List DriveFile) : String :=
  if attachments.isEmpty then ""
  else
    "<div style=\"margin-top:12px;\"><strong>Attachments saved:</strong><ul>" ++
    String.join (attachments.map (fun f => "<li>" ++ escapeHtml (.str f.name) ++ "</li>")) ++
    "</ul></div>"

/-- Embedding of `buildMessageHtml` (src/code.js lines 408-444).  The JS
footer interpolates `new Date().toString()`; that clock reading is the
explicit `now` argument here. -/
def buildMessageHtml (msg : GmailMessage) (attachments : List DriveFile)
    (contentIdMap : Option (List (String × DriveFile))) (now : String) : String :=
  "<!doctype html><html><head><meta charset=\"utf-8\"><title>" ++
  escapeHtml (.str msg.getSubject) ++
  "</title></head><body>" ++
  headersHtml msg ++ "<hr>" ++ bodyHtml msg contentIdMap ++
  attachmentsHtml attachments ++
  ("<div style=\"margin-top:16px;font-size:10px;color:#666;\">Archived via Apps Script on " ++
    escapeHtml (.str now) ++ "</div>") ++
  "</body></html>"

/-- Everything of the rendered document that precedes the footer: a function
of the message, attachment list and content-id map only. -/
def renderCore (msg : GmailMessage) (attachments : List DriveFile)
    (contentIdMap : Option (List (String × DriveFile))) : String :=
  "<!doctype html><html><head><meta charset=\"utf-8\"><title>" ++
  escapeHtml (.str msg.getSubject) ++
  "</title></head><body>" ++
  headersHtml msg ++ "<hr>" ++ bodyHtml msg contentIdMap ++
  attachmentsHtml attachments

/-- Modelled from the spec: the meaning of the search filter handed to the
external mailbox capability.  A `from:` term matches messages whose sender
header contains the address; a `subject:"k"` term matches messages whose
subject contains `k` (case-insensitively); a query may carry no subject term
at all, in which case no subject condition applies; `after:` is inclusive
and `before:` exclusive on `yyyy-MM-dd` dates (lexicographic order). -/
structure QuerySpec where
  sender : String
  subjectTerm : Option String
  after : String
  before : String

/-- Lexicographic less-or-equal on character lists (agrees with
chronological order on `yyyy-MM-dd` strings). -/
def listLexLe : List Char → List Char → Bool
  | [], _ => true
  | _ :: _, [] => false
  | a :: as, b :: bs => if a = b then listLexLe as bs else decide (a < b)

/-- Modelled from the spec: whether a message satisfies a search filter. -/
def specMatches (q : QuerySpec) (m : GmailMessage) : Bool :=
  occursIn (q.sender.data.map jsToLower) (m.getFrom.data.map jsToLower) &&
  (match q.subjectTerm with
   | none => true
   | some k => occursIn (k.data.map jsToLower) (m.getSubject.data.map jsToLower)) &&
  listLexLe q.after.data m.formattedDate.data &&
  (listLexLe m.formattedDate.data q.before.data &&
    !(decide (m.formattedDate = q.before)))

/-- The search specification the code builds: `archiveEmails` replaces an
absent keyword by `''` and always emits a `subject:"..."` term
(src/code.js lines 198-200). -/
def querySpecOf (sender : String) (subjectKeyword : Option String)
    (startDate endDate : String) : QuerySpec :=
  ⟨sender, some (subjectKeyword.getD ""), startDate, endDate⟩

theorem occursIn_nil_needle : ∀ hay : List Char, occursIn [] hay = true := by
  intro hay
  induction hay with
  | nil => rfl
  | cons h t ih => simp [occursIn, startsList]

theorem occursIn_no_lt {tail : List Char} :
    ∀ {hay : List Char}, '<' ∉ hay → occursIn ('<' :: tail) hay = false := by
  intro hay
  induction hay with
  | nil => intro _; rfl
  | cons h t ih =>
      intro hmem
      have hh : ¬('<' = h) := fun he => hmem (by simp [← he])
      simp only [occursIn, startsList, ih (fun hc => hmem (List.mem_cons_of_mem _ hc))]
      simp [hh]

theorem startsList_angle :
    ∀ {s a : List Char}, '>' ∉ s → '>' ∉ a →
      (startsList (s ++ ['>']) (a ++ ['>']) = true ↔ a = s) := by
  intro s
  induction s with
  | nil =>
      intro a hs ha
      cases a with
      | nil => simp [startsList]
      | cons x xs =>
          have hx : ¬('>' = x) := fun he => ha (by simp [← he])
          simp [startsList, hx]
  | cons c cs ih =>
      intro a hs ha
      cases a with
      | nil =>
          have hc : ¬(c = '>') := fun he => hs (by simp [he])
          simp [startsList, hc]
      | cons x xs =>
          have hs' : '>' ∉ cs := fun hc => hs (List.mem_cons_of_mem _ hc)
          have ha' : '>' ∉ xs := fun hc => ha (List.mem_cons_of_mem _ hc)
          by_cases hcx : c = x
          · subst hcx
            simp [startsList, ih hs' ha']
          · have : ¬(x = c) := fun he => hcx he.symm
            simp [startsList, hcx, this]

theorem occursIn_angle :
    ∀ {n a s : List Char}, '<' ∉ n → '<' ∉ a → '>' ∉ a → '>' ∉ s →
      (occursIn ('<' :: (s ++ ['>'])) (n ++ '<' :: (a ++ ['>'])) = true ↔ a = s) := by
  intro n
  induction n with
  | nil =>
      intro a s _ ha1 ha2 hs
      have hlt : '<' ∉ a ++ ['>'] := by
        intro hmem
        rcases List.mem_append.mp hmem with h | h
        · exact ha1 h
        · simp at h
      simp only [List.nil_append, occursIn, startsList]
      rw [occursIn_no_lt hlt]
      simp [startsList_angle hs ha2]
  | cons x n' ih =>
      intro a s hn ha1 ha2 hs
      have hx : ¬('<' = x) := fun he => hn (by simp [← he])
      have hn' : '<' ∉ n' := fun hc => hn (List.mem_cons_of_mem _ hc)
      simp only [List.cons_append, occursIn, startsList]
      rw [Bool.or_eq_true]
      simp only [Bool.and_eq_true, decide_eq_true_eq]
      constructor
      · rintro (⟨he, _⟩ | h)
        · exact absurd he hx
        · exact (ih hn' ha1 ha2 hs).mp h
      · intro h
        exact Or.inr ((ih hn' ha1 ha2 hs).mpr h)

theorem jsToLower_eq_lt {c : Char} (h : jsToLower c = '<') : c = '<' := by
  unfold jsToLower at h
  split at h
  all_goals first
    | exact h
    | exact absurd h (by decide)

theorem jsToLower_eq_gt {c : Char} (h : jsToLower c = '>') : c = '>' := by
  unfold jsToLower at h
  split at h
  all_goals first
    | exact h
    | exact absurd h (by decide)

theorem notMem_map_jsToLower_lt {l : List Char} (h : '<' ∉ l) :
    '<' ∉ l.map jsToLower := by
  intro hmem
  obtain ⟨c, hc, heq⟩ := List.mem_map.mp hmem
  exact h ((jsToLower_eq_lt heq) ▸ hc)

theorem notMem_map_jsToLower_gt {l : List Char} (h : '>' ∉ l) :
    '>' ∉ l.map jsToLower := by
  intro hmem
  obtain ⟨c, hc, heq⟩ := List.mem_map.mp hmem
  exact h ((jsToLower_eq_gt heq) ▸ hc)

theorem mem_replaceChar {x c : Char} {r : List Char} :
    ∀ {l : List Char}, x ∈ replaceChar c r l → x ∈ r ∨ (x ∈ l ∧ x ≠ c) := by
  intro l
  induction l with
  | nil => intro h; simp [replaceChar] at h
  | cons a rest ih =>
      intro h
      simp only [replaceChar] at h
      rcases List.mem_append.mp h with h | h
      · by_cases hac : a = c
        · rw [if_pos hac] at h
          exact Or.inl h
        · rw [if_neg hac] at h
          simp at h
          subst h
          exact Or.inr ⟨by simp, hac⟩
      · rcases ih h with h | ⟨h1, h2⟩
        · exact Or.inl h
        · exact Or.inr ⟨List.mem_cons_of_mem _ h1, h2⟩

theorem mem_collapseWsAux {x : Char} :
    ∀ {l : List Char} {b : Bool}, x ∈ collapseWsAux b l → x = ' ' ∨ x ∈ l := by
  intro l
  induction l with
  | nil => intro b h; simp [collapseWsAux] at h
  | cons c rest ih =>
      intro b h
      simp only [collapseWsAux] at h
      by_cases hc : jsSpace c = true
      · rw [if_pos hc] at h
        rcases List.mem_append.mp h with h | h
        · cases b with
          | true => simp at h
          | false => simp at h; exact Or.inl h
        · rcases ih h with h | h
          · exact Or.inl h
          · exact Or.inr (List.mem_cons_of_mem _ h)
      · rw [if_neg hc] at h
        rcases List.mem_cons.mp h with h | h
        · exact Or.inr (h ▸ List.mem_cons_self _ _)
        · rcases ih h with h | h
          · exact Or.inl h
          · exact Or.inr (List.mem_cons_of_mem _ h)

theorem mem_jsTrim {x : Char} {l : List Char} (h : x ∈ jsTrim l) : x ∈ l := by
  unfold jsTrim at h
  rw [List.mem_reverse] at h
  have h1 := (List.dropWhile_sublist jsSpace).subset h
  rw [List.mem_reverse] at h1
  exact (List.dropWhile_sublist jsSpace).subset h1

theorem mem_sanitizeClean {x : Char} {name : String} (h : x ∈ sanitizeClean name) :
    badChar x = false := by
  unfold sanitizeClean collapseWs at h
  have h1 := mem_jsTrim h
  rcases mem_collapseWsAux h1 with h2 | h2
  · subst h2; decide
  · obtain ⟨c, _, heq⟩ := List.mem_map.mp h2
    by_cases hbc : badChar c = true
    · rw [if_pos hbc] at heq
      subst heq; decide
    · rw [if_neg hbc] at heq
      subst heq
      exact Bool.eq_false_iff.mpr hbc

/-- A small concrete Drive file used by the concrete instances below. -/
def fileA : DriveFile := ⟨"2025-08-12-image-00001.png", "image/png", [137, 80]⟩

/-- A concrete message whose sender header is well formed and matches
`hr@cca.edu`. -/
def msgPlain : GmailMessage :=
  ⟨"Denise Newman <hr@cca.edu>", "Tue Aug 12 2025", "2025-08-12", "Update",
    "<p>x</p>", "raw", [], ⟨true, true, true⟩⟩

/-- A concrete message whose display name contains the quoted text
`<hr@cca.edu>` while the actual angle-bracket address is `evil@evil.com`. -/
def msgSpoof : GmailMessage :=
  ⟨"\"<hr@cca.edu>\" <evil@evil.com>", "Tue Aug 12 2025", "2025-08-12", "HR NEWS",
    "<p>hi</p>", "raw", [], ⟨true, true, true⟩⟩

/-- A concrete environment whose search returns no threads. -/
def env0 : ArchiveEnv := ⟨fun _ => [], fun _ => "folder0"⟩

/-- C1, counterexample.  The claim says a failure in one artifact step does
not prevent the remaining steps, so with the `.eml` save failing and the
other two operations able to succeed, the `.html` and `.pdf` artifacts
should still be present.  In the code all three saves sit in one `try`
block, so the same oracle yields no artifacts at all — even though the very
same `.html`/`.pdf` operations succeed when the `.eml` save does. -/
theorem c1_counterexample :
    persistArtifacts ⟨false, true, true⟩ = [] ∧
    persistArtifacts ⟨true, true, true⟩ = [Artifact.eml, Artifact.html, Artifact.pdf] := by
  decide

/-- C1, amended.  The three artifact steps run in order inside a single
guarded block: the first failure aborts the remaining steps for that
message, so the artifacts present always form a prefix of
(eml, html, pdf) — not an arbitrary subset.  The failure is still caught,
so any other message's outcome is unaffected (changing the message at
position `i` does not change the outcome at any other position `j`). -/
theorem c1_amended :
    ∀ (o : PersistOracle) (sender : String) (msgs : List GmailMessage)
      (i j : Nat) (m' : GmailMessage), i ≠ j →
      (∃ k, persistArtifacts o = [Artifact.eml, Artifact.html, Artifact.pdf].take k) ∧
      ((msgs.set i m').map (processMessage sender))[j]? =
        (msgs.map (processMessage sender))[j]? := by
  intro o sender msgs i j m' hij
  refine ⟨?_, ?_⟩
  · rcases o with ⟨e, h2, p⟩
    cases e
    · exact ⟨0, rfl⟩
    · cases h2
      · exact ⟨1, rfl⟩
      · cases p
        · exact ⟨2, rfl⟩
        · exact ⟨3, rfl⟩
  · rw [List.map_set, List.getElem?_set_ne hij]

/-- C1, witness for the amended theorem at a concrete oracle and message
list. -/
theorem c1_witness :
    (∃ k, persistArtifacts ⟨false, true, true⟩ =
        [Artifact.eml, Artifact.html, Artifact.pdf].take k) ∧
    (([msgPlain, msgSpoof].set 0 msgSpoof).map (processMessage "hr@cca.edu"))[1]? =
      ([msgPlain, msgSpoof].map (processMessage "hr@cca.edu"))[1]? :=
  c1_amended ⟨false, true, true⟩ "hr@cca.edu" [msgPlain, msgSpoof] 0 1 msgSpoof
    (by decide)

/-- C2, counterexample.  The code's filter is a substring test for
`<sender>` inside the lowercased From header, so a display name that itself
contains the quoted text `<hr@cca.edu>` passes the filter even though the
address portion of the header is `evil@evil.com`: the message is processed
and produces persisted output although its sender address does not match. -/
theorem c2_counterexample :
    senderMatches "\"<hr@cca.edu>\" <evil@evil.com>" "hr@cca.edu" = true ∧
    processMessage "hr@cca.edu" msgSpoof ≠ (⟨[], []⟩ : MsgOutcome) ∧
    (addressPortion "\"<hr@cca.edu>\" <evil@evil.com>").data.map jsToLower ≠
      "hr@cca.edu".data.map jsToLower := by
  decide

/-- C2, amended.  The check the code applies is: the lowercased From header
contains the literal substring `<sender>`.  For a well-formed header
`display name ++ "<" ++ address ++ ">"` whose display name contains no `<`
and whose address contains no angle brackets, this holds exactly when the
address equals the target sender case-insensitively; and the check is
applied before any part extraction, so a message that fails it produces no
output at all — no attachment files and no artifacts. -/
theorem c2_amended :
    ∀ (nm ad sender : String),
      '<' ∉ nm.data → '<' ∉ ad.data → '>' ∉ ad.data → '>' ∉ sender.data →
      ((senderMatches (nm ++ "<" ++ ad ++ ">") sender = true ↔
          ad.data.map jsToLower = sender.data.map jsToLower) ∧
        ∀ msg : GmailMessage, senderMatches msg.getFrom sender = false →
          processMessage sender msg = ⟨[], []⟩) := by
  intro nm ad sender h1 h2 h3 h4
  constructor
  · have hlt : ("<" : String).data = ['<'] := rfl
    have hgt : (">" : String).data = ['>'] := rfl
    have hdata : (nm ++ "<" ++ ad ++ ">").data = nm.data ++ '<' :: (ad.data ++ ['>']) := by
      simp [String.data_append, hlt, hgt]
    unfold senderMatches
    rw [hdata, List.map_append, List.map_cons, List.map_append]
    have hl : jsToLower '<' = '<' := rfl
    have hg : (['>'] : List Char).map jsToLower = ['>'] := rfl
    rw [hl, hg]
    exact occursIn_angle (notMem_map_jsToLower_lt h1) (notMem_map_jsToLower_lt h2)
      (notMem_map_jsToLower_gt h3) (notMem_map_jsToLower_gt h4)
  · intro msg hm
    simp [processMessage, hm]

/-- C2, witness for the amended theorem: a well-formed header matches
exactly when the addresses agree up to case. -/
theorem c2_witness :
    senderMatches ("Denise Newman " ++ "<" ++ "HR@cca.edu" ++ ">") "hr@cca.edu" = true :=
  ((c2_amended "Denise Newman " "HR@cca.edu" "hr@cca.edu" (by decide) (by decide)
    (by decide) (by decide)).1).mpr (by decide)

instance : DecidableEq (Except String (List MsgOutcome)) := fun a b =>
  match a, b with
  | .ok x, .ok y => decidable_of_iff (x = y) (by simp)
  | .error x, .error y => decidable_of_iff (x = y) (by simp)
  | .ok _, .error _ => isFalse (by simp)
  | .error _, .ok _ => isFalse (by simp)

/-- C7, counterexample.  For the integer year 0 (JS `!year` is true), the
wrapper throws its own error before delegating, while the direct call with
`"0-01-01"`/`"1-01-01"` fails the startDate format check instead: the two
calls raise different precondition errors, so they are not identical. -/
theorem c7_counterexample :
    archiveYear env0 0 "a@b.c" none none ≠
      archiveEmails env0 "0-01-01" "1-01-01" "a@b.c" none none := by
  decide

/-- C7, amended.  For every nonzero integer year the wrapper is literally
the delegated call with `toString year ++ "-01-01"` and
`toString (year + 1) ++ "-01-01"`, with the same result including the same
precondition errors; at year 0 the wrapper's own `!year` check fires
first with a different error. -/
theorem c7_amended :
    ∀ (year : Int), year ≠ 0 →
      ∀ (env : ArchiveEnv) (sender : String) (subjectKeyword folderId : Option String),
        archiveYear env year sender subjectKeyword folderId =
          archiveEmails env (toString year ++ "-01-01")
            (toString (year + 1) ++ "-01-01") sender subjectKeyword folderId := by
  intro y hy env s k f
  unfold archiveYear
  rw [if_neg hy]

/-- C7, witness for the amended theorem at year 2024. -/
theorem c7_witness :
    archiveYear env0 2024 "a@b.c" none none =
      archiveEmails env0 (toString (2024 : Int) ++ "-01-01")
        (toString ((2024 : Int) + 1) ++ "-01-01") "a@b.c" none none :=
  c7_amended 2024 (by decide) env0 "a@b.c" none none

/-- C3: after `convertCIDtoBase64`, the cid tokens present in the output are
exactly the tokens of the input whose identifier has no entry in the map —
mapped tokens are gone (each replaced by its data URI), unmapped tokens
survive unchanged, in order.  The hypothesis rules out a content type that
itself smuggles a `cid:` token into the replacement text. -/
theorem c3_cid_tokens :
    ∀ (html : String) (m : List (String × DriveFile)),
      (∀ p ∈ m, cidTokens (dataUriChars p.2) = []) →
      cidTokens (convertCIDtoBase64 html m).data =
        (cidTokens html.data).filter (fun t => (cidLookup m (String.mk t)).isNone) :=
  fun html m H => replaceCIDs_tokens_master m H html.data.length html.data le_rfl

/-- C3, witness at a concrete body with one mapped and one unmapped token. -/
theorem c3_witness :
    cidTokens (convertCIDtoBase64 "<p><img src=\"cid:abc\"> cid:zzz</p>"
        [("abc", fileA)]).data =
      (cidTokens ("<p><img src=\"cid:abc\"> cid:zzz</p>" : String).data).filter
        (fun t => (cidLookup [("abc", fileA)] (String.mk t)).isNone) :=
  c3_cid_tokens "<p><img src=\"cid:abc\"> cid:zzz</p>" [("abc", fileA)] (by decide)

/-- A 130-character subject, longer than the 120-character truncation
threshold. -/
def longName : String := String.mk (List.replicate 130 'a')

/-- C4: the claim (single truncation marker character, total length at most
121) holds of `sanitizeFilename` as written in src/unnamed/part_000, whose
marker is the one character `…`; the copy in src/code.js instead appends the
three-character mojibake `â€¦` (the UTF-8 bytes of `…` read back as
Latin-1), so there a truncated name has length 123 and no single marker
character.  The general bound is proved for the part_000 version; the
src/code.js version is evaluated at the failing input. -/
theorem c4_sanitize :
    (sanitizeFilename longName).length = 123 ∧
    (sanitizeFilename longName).data.drop 120 = ['â', '€', '¦'] ∧
    (sanitizeFilenamePart0 longName).length = 121 ∧
    (sanitizeFilenamePart0 longName).data.drop 120 = ['…'] ∧
    ∀ name : String, (sanitizeFilenamePart0 name).length ≤ 121 ∧
      ∀ c ∈ (sanitizeFilenamePart0 name).data, badChar c = false := by
  refine ⟨by decide, by decide, by decide, by decide, ?_⟩
  intro name
  unfold sanitizeFilenamePart0
  by_cases hlen : (sanitizeClean name).length > 120
  · rw [if_pos hlen]
    constructor
    · show ((sanitizeClean name).take 120 ++ ['…']).length ≤ 121
      simp [List.length_take]
    · intro c hc
      show badChar c = false
      rcases List.mem_append.mp hc with h | h
      · exact mem_sanitizeClean ((List.take_sublist _ _).subset h)
      · simp at h
        subst h
        decide
  · rw [if_neg hlen]
    constructor
    · show (sanitizeClean name).length ≤ 121
      omega
    · intro c hc
      exact mem_sanitizeClean hc

/-- C5, counterexample.  The input `"&"` contains one of the four special
characters, yet the escaped output `"&amp;"` still literally contains the
character `&`: escaping rewrites specials into ampersand entities, so the
output is not free of all four characters. -/
theorem c5_counterexample :
    '&' ∈ ("&" : String).data ∧ '&' ∈ (escapeHtml (.str "&")).data := by
  decide

/-- C5, amended.  For every input (any string, and the null/undefined cases
too) the escaped output contains no literal `<`, `>` or `"`; ampersands do
remain, as the lead character of the entities `&amp;`, `&lt;`, `&gt;`,
`&quot;`. -/
theorem c5_amended :
    ∀ s : JStr, '<' ∉ (escapeHtml s).data ∧ '>' ∉ (escapeHtml s).data ∧
      '"' ∉ (escapeHtml s).data := by
  intro s
  cases s with
  | null => refine ⟨?_, ?_, ?_⟩ <;> decide
  | undefined => refine ⟨?_, ?_, ?_⟩ <;> decide
  | str t =>
      refine ⟨?_, ?_, ?_⟩ <;> intro hmem
      · rcases mem_replaceChar hmem with h | ⟨h, _⟩
        · exact absurd h (by decide)
        rcases mem_replaceChar h with h | ⟨h, _⟩
        · exact absurd h (by decide)
        rcases mem_replaceChar h with h | ⟨_, hne⟩
        · exact absurd h (by decide)
        · exact hne rfl
      · rcases mem_replaceChar hmem with h | ⟨h, _⟩
        · exact absurd h (by decide)
        rcases mem_replaceChar h with h | ⟨_, hne⟩
        · exact absurd h (by decide)
        · exact hne rfl
      · rcases mem_replaceChar hmem with h | ⟨_, hne⟩
        · exact absurd h (by decide)
        · exact hne rfl

/-- The rendered document splits into a core that depends only on the
message, attachments and content-id map, followed by the footer that embeds
the escaped clock string. -/
theorem buildMessageHtml_split :
    ∀ (msg : GmailMessage) (atts : List DriveFile)
      (cmap : Option (List (String × DriveFile))) (now : String),
      buildMessageHtml msg atts cmap now =
        renderCore msg atts cmap ++
          ("<div style=\"margin-top:16px;font-size:10px;color:#666;\">Archived via Apps Script on " ++
            escapeHtml (.str now) ++ "</div>" ++ "</body></html>") := by
  intro msg atts cmap now
  apply String.ext
  simp [buildMessageHtml, renderCore, String.data_append]

/-- C6, counterexample.  The renderer reads the wall clock
(`new Date().toString()` in the footer), so two invocations on the same
message, attachment list and content-id map made at different times produce
different HTML strings. -/
theorem c6_counterexample :
    buildMessageHtml msgPlain [] (some []) "Mon Jan 01 2025" ≠
      buildMessageHtml msgPlain [] (some []) "Tue Jan 02 2025" := by
  decide

/-- C6, amended.  Rendering performs no I/O other than reading the clock:
modelling that reading as an explicit argument, the output is a pure
function of (message, attachments, content-id map, clock string), and for
fixed message inputs two renderings are equal exactly when their escaped
clock strings are equal — the timestamp footer is the only part of the
output that depends on anything beyond the three message inputs. -/
theorem c6_amended :
    ∀ (msg : GmailMessage) (atts : List DriveFile)
      (cmap : Option (List (String × DriveFile))) (t1 t2 : String),
      buildMessageHtml msg atts cmap t1 = buildMessageHtml msg atts cmap t2 ↔
        escapeHtml (.str t1) = escapeHtml (.str t2) := by
  intro msg atts cmap t1 t2
  rw [buildMessageHtml_split msg atts cmap t1, buildMessageHtml_split msg atts cmap t2]
  constructor
  · intro h
    have hd := congrArg String.data h
    simp only [String.data_append, List.append_assoc] at hd
    have h1 := List.append_cancel_left hd
    have h2 := List.append_cancel_left h1
    have h3 := List.append_cancel_right h2
    exact String.ext h3
  · intro h
    rw [h]

/-- C8: with an absent or empty subject keyword the code still emits a
`subject:""` term, but the query string it builds coincides with the one
built for the empty keyword, and under the spec's search semantics an empty
subject term matches every message — the specification restricts nothing
relative to the same query with no subject term at all, and in particular
does not filter for an empty subject. -/
theorem c8_empty_subject :
    ∀ (k : Option String), k = none ∨ k = some "" →
      ∀ (sender startDate endDate : String) (msg : GmailMessage),
        buildQuery sender (k.getD "") startDate endDate =
          buildQuery sender "" startDate endDate ∧
        specMatches (querySpecOf sender k startDate endDate) msg =
          specMatches ⟨sender, none, startDate, endDate⟩ msg := by
  have hnil : ("" : String).data = [] := rfl
  intro k hk sender a b msg
  rcases hk with rfl | rfl
  · exact ⟨rfl, by simp [querySpecOf, specMatches, hnil, occursIn_nil_needle]⟩
  · exact ⟨rfl, by simp [querySpecOf, specMatches, hnil, occursIn_nil_needle]⟩

/-- C8, witness at an absent keyword and a concrete query and message. -/
theorem c8_witness :
    buildQuery "x@y.z" ((none : Option String).getD "") "2025-01-01" "2025-02-01" =
      buildQuery "x@y.z" "" "2025-01-01" "2025-02-01" ∧
    specMatches (querySpecOf "x@y.z" none "2025-01-01" "2025-02-01") msgPlain =
      specMatches ⟨"x@y.z", none, "2025-01-01", "2025-02-01"⟩ msgPlain :=
  c8_empty_subject none (Or.inl rfl) "x@y.z" "2025-01-01" "2025-02-01" msgPlain

/-- C9: `escapeHtml` maps both null and undefined to the empty string, so a
missing header value renders as no text rather than failing. -/
theorem c9_null_undefined :
    escapeHtml JStr.null = "" ∧ escapeHtml JStr.undefined = "" :=
  ⟨rfl, rfl⟩

/-- C10: with an empty content-id map every matched token misses the lookup
and is replaced by itself, so `convertCIDtoBase64` is the identity on the
HTML. -/
theorem c10_empty_map_identity :
    ∀ html : String, convertCIDtoBase64 html [] = html := by
  intro html
  unfold convertCIDtoBase64
  rw [replaceCIDs_empty_master html.data.length html.data le_rfl]
